import Mathlib

/-!
Verification development for the russula coordination protocol of the
netbench orchestrator.

The repository's protocol layer lives in `src/russula.rs` and the modules
`src/russula/netbench_server_coord.rs`, `src/russula/netbench_server_worker.rs`
and `src/russula/netbench.rs`.  Wire messages are short ASCII byte tokens; they
are modelled as `String`.  The modules `error.rs`, `protocol.rs`,
`network_utils.rs`, `state_action.rs` and `wip_netbench_server.rs` are declared
by `russula.rs` but their sources are absent; the few items of theirs that the
present sources use (`RussulaError`, `TransitionStep`, `NextTransitionMsg`,
`StateApi::await_peer_msg`, the coordinator state type
`CoordNetbenchServerState`) are modelled from the specification, each marked
`Modelled from the spec:` in its doc comment.
-/

/-- Modelled from the spec: the error taxonomy of `russula::error::RussulaError`
(`error.rs` is declared by `russula.rs` but absent from the sources).  The
variant names are exactly those constructed and matched by the present sources
(`Connect`, `NetworkFail`, `NetworkBlocked`, `BadMsg`); spec section 7 lists the
same four kinds as `ConnectFailure`, `IoFailure`, `NetworkBlocked` and
`MalformedMessage`, each carrying a diagnostic payload, here the `dbg` string.
For `BadMsg` the sources format the offending bytes into the `dbg` text via
`format!("unrecognized msg {:?}", ..)`; the model carries the offending bytes
themselves. -/
inductive RussulaError
  | Connect (dbg : String)
  | NetworkFail (dbg : String)
  | NetworkBlocked (dbg : String)
  | BadMsg (dbg : String)
deriving DecidableEq

/-- Outcome of one readiness-gated non-blocking `try_read_buf` attempt on a
connection: some bytes were read, the read would block (no data buffered), or
the read failed with another I/O error. -/
inductive ReadResult
  | data (msg : String)
  | wouldBlock
  | ioFail
deriving DecidableEq

/-- Result of running a piece of fallible code that may also `panic!` or
`unwrap()` an error: a value, a returned `Err`, or a crash. -/
inductive StepOutcome (α : Type)
  | ok (val : α)
  | err (e : RussulaError)
  | panicked
deriving DecidableEq

/-- The readiness value `core::task::Poll<()>` as used by `poll_state` and
`Russula::poll_next`. -/
inductive Poll
  | Ready
  | Pending
deriving DecidableEq

/-- Modelled from the spec: `russula::protocol::NextTransitionMsg`
(`protocol.rs` is absent).  The sources construct only
`NextTransitionMsg::PeerDriven(token)`; spec section 3 classifies transitions
as peer-driven or user-driven, so a `UserDriven` variant is included. -/
inductive NextTransitionMsg
  | PeerDriven (msg : String)
  | UserDriven
deriving DecidableEq

/-- Modelled from the spec: `russula::protocol::TransitionStep` (`protocol.rs`
is absent).  Spec section 3 gives the transition-step classification
`AwaitPeerState(expected_token)`, `UserDriven`, `SelfDriven`, `Finished`; the
worker sources construct `AwaitPeerState` and `Finished` and the test matches
`UserDriven`. -/
inductive TransitionStep
  | AwaitPeerState (token : String)
  | UserDriven
  | SelfDriven
  | Finished
deriving DecidableEq

/-- The server-endpoint coordinator phase type defined in
`netbench_server_coord.rs` lines 15-21: a linear four-phase chain. -/
inductive NetbenchCoordServerState
  | CoordCheckPeer
  | CoordReady
  | CoordWaitPeerDone
  | CoordDone
deriving DecidableEq, Fintype

/-- The server-endpoint worker phase type defined in
`netbench_server_worker.rs` lines 15-21: `WaitPeerInit`, `Ready`, `Run`,
`Done`. -/
inductive WorkerNetbenchServerState
  | WaitPeerInit
  | Ready
  | Run
  | Done
deriving DecidableEq, Fintype

/-- The worker phase type of `netbench.rs` lines 100-106 (`NetbenchWorkerState`).
The file also defines a textually identical twin `NetbenchOrchState`
(lines 254-260) with the same variants, tokens and transition table; the twin
is not duplicated here. -/
inductive NetbenchWorkerState
  | Ready
  | WaitPeerDone
  | Done
deriving DecidableEq, Fintype

/-- Modelled from the spec: the five-phase server-endpoint coordinator state
`CoordNetbenchServerState`.  Its defining module is absent from the sources;
only its callers remain (`netbench_server_worker.rs` lines 139-147 reference
`CheckPeer`, `RunPeer` and `KillPeer`, and the integration test in `russula.rs`
references `Ready`, `RunPeer` and `KillPeer`).  Spec section 3 gives the chain
`CheckPeer -> Ready -> RunPeer -> KillPeer -> Done`. -/
inductive CoordNetbenchServerState
  | CheckPeer
  | Ready
  | RunPeer
  | KillPeer
  | Done
deriving DecidableEq, Fintype

namespace CoordNetbenchServerState

/-- Modelled from the spec: successor function of the five-phase coordinator
chain (spec sections 3 and 4.2); the terminal `Done` is its own successor. -/
def next : CoordNetbenchServerState → CoordNetbenchServerState
  | CheckPeer => Ready
  | Ready => RunPeer
  | RunPeer => KillPeer
  | KillPeer => Done
  | Done => Done

/-- Modelled from the spec: wire token of each phase, following the literal
lowercase underscore-separated convention of spec section 6, which lists
`coord_run_peer` explicitly. -/
def as_bytes : CoordNetbenchServerState → String
  | CheckPeer => "coord_check_peer"
  | Ready => "coord_ready"
  | RunPeer => "coord_run_peer"
  | KillPeer => "coord_kill_peer"
  | Done => "coord_done"

end CoordNetbenchServerState

namespace WorkerNetbenchServerState

/-- Wire token of each worker phase (`netbench_server_worker.rs` lines
166-173). -/
def as_bytes : WorkerNetbenchServerState → String
  | WaitPeerInit => "server_wait_coord_init"
  | Ready => "server_ready"
  | Run => "server_wait_peer_done"
  | Done => "server_done"

/-- Token decoding (`netbench_server_worker.rs` lines 175-189); an
unrecognized token yields `RussulaError::BadMsg` carrying the offending
bytes. -/
def from_bytes (bytes : String) : Except RussulaError WorkerNetbenchServerState :=
  match bytes with
  | "server_wait_coord_init" => Except.ok WaitPeerInit
  | "server_ready" => Except.ok Ready
  | "server_wait_peer_done" => Except.ok Run
  | "server_done" => Except.ok Done
  | bad_msg => Except.error (RussulaError.BadMsg bad_msg)

/-- Phase equality (`netbench_server_worker.rs` lines 120-135), written with
`matches!` per variant in the source. -/
def eq : WorkerNetbenchServerState → WorkerNetbenchServerState → Bool
  | WaitPeerInit, WaitPeerInit => true
  | Ready, Ready => true
  | Run, Run => true
  | Done, Done => true
  | _, _ => false

/-- Per-phase transition rule (`netbench_server_worker.rs` lines 137-150): the
first three phases await the coordinator's `CheckPeer`, `RunPeer` and
`KillPeer` tokens respectively; `Done` is `Finished`. -/
def transition_step : WorkerNetbenchServerState → TransitionStep
  | WaitPeerInit => TransitionStep.AwaitPeerState (CoordNetbenchServerState.as_bytes CoordNetbenchServerState.CheckPeer)
  | Ready => TransitionStep.AwaitPeerState (CoordNetbenchServerState.as_bytes CoordNetbenchServerState.RunPeer)
  | Run => TransitionStep.AwaitPeerState (CoordNetbenchServerState.as_bytes CoordNetbenchServerState.KillPeer)
  | Done => TransitionStep.Finished

/-- Successor function (`netbench_server_worker.rs` lines 157-164); `Done` maps
to itself.  `transition_next` (lines 152-155) assigns `*self = self.next_state()`
and is represented by applying this function. -/
def next_state : WorkerNetbenchServerState → WorkerNetbenchServerState
  | WaitPeerInit => Ready
  | Ready => Run
  | Run => Done
  | Done => Done

/-- Modelled from the spec: `StateApi::await_peer_msg`, provided by the absent
`protocol.rs` and called by `run` (lines 103 and 106).  Spec section 4.1, rule
`AwaitPeerState`: announce the own token, then attempt a single non-blocking
receive; a received token equal to the expected peer token advances the phase
to its successor, a non-matching token is logged and leaves the phase
unchanged, no available data is the `NetworkBlocked` outcome of spec section 7,
and any other I/O failure is fatal for the session. -/
def await_peer_msg (s : WorkerNetbenchServerState) (r : ReadResult) :
    Except RussulaError WorkerNetbenchServerState :=
  match r with
  | ReadResult.data msg =>
    match s.transition_step with
    | TransitionStep.AwaitPeerState expected =>
      if msg = expected then Except.ok s.next_state else Except.ok s
    | _ => Except.ok s
  | ReadResult.wouldBlock => Except.error (RussulaError.NetworkBlocked ("would block"))
  | ReadResult.ioFail => Except.error (RussulaError.NetworkFail ("io failure"))

/-- One step of the worker state machine (`netbench_server_worker.rs` lines
100-118): `WaitPeerInit` propagates any error of `await_peer_msg`; `Ready`
catches `NetworkBlocked` and keeps the phase; `Run` and `Done` self-advance via
`transition_next`. -/
def run (s : WorkerNetbenchServerState) (r : ReadResult) :
    Except RussulaError WorkerNetbenchServerState :=
  match s with
  | WaitPeerInit => await_peer_msg WaitPeerInit r
  | Ready =>
    match await_peer_msg Ready r with
    | Except.error (RussulaError.NetworkBlocked _) => Except.ok Ready
    | res => res
  | Run => Except.ok (next_state Run)
  | Done => Except.ok (next_state Done)

/-- The phase reached by one `run` step, with an erroring step leaving the
phase as it was (the source loop stops advancing that session). -/
def runPhase (s : WorkerNetbenchServerState) (r : ReadResult) : WorkerNetbenchServerState :=
  match run s r with
  | Except.ok s2 => s2
  | Except.error _ => s

/-- One poll attempt of `NetbenchWorkerServerProtocol::poll_state`
(`netbench_server_worker.rs` lines 75-91): run one step unless already at the
target, then report `Ready` exactly when the (possibly advanced) phase equals
the target. -/
def poll_state (s target : WorkerNetbenchServerState) (r : ReadResult) :
    Except RussulaError (WorkerNetbenchServerState × Poll) :=
  match (if eq s target then Except.ok s else run s r) with
  | Except.error e => Except.error e
  | Except.ok s2 => Except.ok (s2, if eq s2 target then Poll.Ready else Poll.Pending)

/-- Position of a phase in the worker chain. -/
def idx : WorkerNetbenchServerState → Nat
  | WaitPeerInit => 0
  | Ready => 1
  | Run => 2
  | Done => 3

end WorkerNetbenchServerState

namespace NetbenchCoordServerState

/-- Wire token of each coordinator phase (`netbench_server_coord.rs` lines
173-180). -/
def as_bytes : NetbenchCoordServerState → String
  | CoordCheckPeer => "coord_check_peer"
  | CoordReady => "coord_ready"
  | CoordWaitPeerDone => "coord_wait_peer_done"
  | CoordDone => "coord_done"

/-- Token decoding (`netbench_server_coord.rs` lines 182-195).  The source
match has arms for `coord_ready`, `coord_wait_peer_done` and `coord_done`
only; `coord_check_peer` falls through to the `bad_msg` arm. -/
def from_bytes (bytes : String) : Except RussulaError NetbenchCoordServerState :=
  match bytes with
  | "coord_ready" => Except.ok CoordReady
  | "coord_wait_peer_done" => Except.ok CoordWaitPeerDone
  | "coord_done" => Except.ok CoordDone
  | bad_msg => Except.error (RussulaError.BadMsg bad_msg)

/-- Phase equality (`netbench_server_coord.rs` lines 114-129). -/
def eq : NetbenchCoordServerState → NetbenchCoordServerState → Bool
  | CoordCheckPeer, CoordCheckPeer => true
  | CoordReady, CoordReady => true
  | CoordWaitPeerDone, CoordWaitPeerDone => true
  | CoordDone, CoordDone => true
  | _, _ => false

/-- Expected peer message per phase (`netbench_server_coord.rs` lines
131-142): `CoordCheckPeer` awaits the worker `Ready` token, `CoordWaitPeerDone`
awaits the worker `Done` token, the other phases await nothing.  The source
writes the tokens as `NetbenchWorkerServerState::ServerReady.as_bytes()` and
`::ServerDone.as_bytes()`; that type's defining module is absent, and the
in-source worker type `WorkerNetbenchServerState` carries the same
`server_ready` and `server_done` tokens (spec section 6), so its `as_bytes` is
used. -/
def expect_peer_msg : NetbenchCoordServerState → Option NextTransitionMsg
  | CoordCheckPeer => some (NextTransitionMsg.PeerDriven
      (WorkerNetbenchServerState.as_bytes WorkerNetbenchServerState.Ready))
  | CoordReady => none
  | CoordWaitPeerDone => some (NextTransitionMsg.PeerDriven
      (WorkerNetbenchServerState.as_bytes WorkerNetbenchServerState.Done))
  | CoordDone => none

/-- Successor function (`netbench_server_coord.rs` lines 144-151), assigned to
`*self` in the source; `CoordDone` maps to itself. -/
def next : NetbenchCoordServerState → NetbenchCoordServerState
  | CoordCheckPeer => CoordReady
  | CoordReady => CoordWaitPeerDone
  | CoordWaitPeerDone => CoordDone
  | CoordDone => CoordDone

/-- Message processing (`netbench_server_coord.rs` lines 153-165): when the
current phase expects a peer-driven message and the received bytes equal the
expected token, advance to the successor; otherwise leave the phase
unchanged. -/
def process_msg (s : NetbenchCoordServerState) (msg : String) : NetbenchCoordServerState :=
  match s.expect_peer_msg with
  | some (NextTransitionMsg.PeerDriven peer_msg) =>
    if peer_msg = msg then s.next else s
  | _ => s

/-- Non-blocking receive (`netbench_server_coord.rs` lines 205-223, textually
identical to `NetbenchCoordServerProtocol::recv_msg` at lines 64-82): on read
data, decode with the worker decoder and propagate a decode failure via `?`,
returning the raw bytes on success; on a would-block read or any other read
error the source executes `panic!`. -/
def recv_msg (r : ReadResult) : StepOutcome String :=
  match r with
  | ReadResult.data buf =>
    match WorkerNetbenchServerState.from_bytes buf with
    | Except.ok _ => StepOutcome.ok buf
    | Except.error e => StepOutcome.err e
  | ReadResult.wouldBlock => StepOutcome.panicked
  | ReadResult.ioFail => StepOutcome.panicked

/-- One step of the coordinator state machine (`netbench_server_coord.rs`
lines 99-112): `CoordCheckPeer` announces its own token, then receives and
processes one message, with `.unwrap()` turning a receive error into a crash;
every other phase self-advances via `next`. -/
def run (s : NetbenchCoordServerState) (r : ReadResult) :
    StepOutcome NetbenchCoordServerState :=
  match s with
  | CoordCheckPeer =>
    match recv_msg r with
    | StepOutcome.ok buf => StepOutcome.ok (process_msg CoordCheckPeer buf)
    | StepOutcome.err _ => StepOutcome.panicked
    | StepOutcome.panicked => StepOutcome.panicked
  | CoordReady => StepOutcome.ok (next CoordReady)
  | CoordWaitPeerDone => StepOutcome.ok (next CoordWaitPeerDone)
  | CoordDone => StepOutcome.ok (next CoordDone)

/-- The phase reached by one `run` step, with a crashing step not moving the
phase. -/
def runPhase (s : NetbenchCoordServerState) (r : ReadResult) : NetbenchCoordServerState :=
  match run s r with
  | StepOutcome.ok s2 => s2
  | _ => s

/-- Position of a phase in the coordinator chain. -/
def idx : NetbenchCoordServerState → Nat
  | CoordCheckPeer => 0
  | CoordReady => 1
  | CoordWaitPeerDone => 2
  | CoordDone => 3

end NetbenchCoordServerState

namespace NetbenchCoordServerProtocol

/-- Non-blocking receive of `NetbenchCoordServerProtocol::recv_msg`
(`netbench_server_coord.rs` lines 64-82), textually identical to the state-level
receive at lines 205-223. -/
def recv_msg (r : ReadResult) : StepOutcome String :=
  NetbenchCoordServerState.recv_msg r

end NetbenchCoordServerProtocol

namespace NetbenchWorkerState

/-- Wire token of each `netbench.rs` worker phase (lines 147-153). -/
def as_bytes : NetbenchWorkerState → String
  | Ready => "ready"
  | WaitPeerDone => "wait_peer_done"
  | Done => "done"

/-- Token decoding (`netbench.rs` lines 155-168). -/
def from_bytes (bytes : String) : Except RussulaError NetbenchWorkerState :=
  match bytes with
  | "ready" => Except.ok Ready
  | "wait_peer_done" => Except.ok WaitPeerDone
  | "done" => Except.ok Done
  | bad_msg => Except.error (RussulaError.BadMsg bad_msg)

/-- Phase equality (`netbench.rs` lines 109-115). -/
def eq : NetbenchWorkerState → NetbenchWorkerState → Bool
  | Ready, Ready => true
  | WaitPeerDone, WaitPeerDone => true
  | Done, Done => true
  | _, _ => false

/-- Expected peer message per phase (`netbench.rs` lines 117-125): only
`WaitPeerDone` is peer-driven, on the token `wait_peer_done_next`. -/
def next_transition_msg : NetbenchWorkerState → Option NextTransitionMsg
  | Ready => none
  | WaitPeerDone => some (NextTransitionMsg.PeerDriven ("wait_peer_done_next"))
  | Done => none

/-- Successor function (`netbench.rs` lines 127-133).  Note the source
signature is `fn next(&mut self) -> Self`: the match produces the successor as
the return value and never assigns `*self`, so calling `next` does not change
the receiver. -/
def next : NetbenchWorkerState → NetbenchWorkerState
  | Ready => WaitPeerDone
  | WaitPeerDone => Done
  | Done => Done

/-- Message processing (`netbench.rs` lines 135-143).  On a matching
peer-driven token the source calls `self.next()`; since `next` returns the
successor without assigning `*self` (lines 127-133) and the returned value is
discarded, the phase is unchanged on every input. -/
def process_msg (s : NetbenchWorkerState) (msg : String) : NetbenchWorkerState :=
  match s.next_transition_msg with
  | some (NextTransitionMsg.PeerDriven peer_msg) =>
    if peer_msg = msg then
      let _discarded := s.next
      s
    else s
  | _ => s

/-- Position of a phase in the `netbench.rs` chain. -/
def idx : NetbenchWorkerState → Nat
  | Ready => 0
  | WaitPeerDone => 1
  | Done => 2

end NetbenchWorkerState

namespace NetbenchWorkerProtocol

/-- Non-blocking receive of `NetbenchWorkerProtocol::recv_msg` (`netbench.rs`
lines 58-75): on read data, decode and propagate a decode failure via `?`, then
return `Ok(self.state)` (the received value itself is dropped, see the `TODO`);
on a would-block read or any other read error the source executes `panic!`. -/
def recv_msg (state : NetbenchWorkerState) (r : ReadResult) : StepOutcome NetbenchWorkerState :=
  match r with
  | ReadResult.data buf =>
    match NetbenchWorkerState.from_bytes buf with
    | Except.ok _ => StepOutcome.ok state
    | Except.error e => StepOutcome.err e
  | ReadResult.wouldBlock => StepOutcome.panicked
  | ReadResult.ioFail => StepOutcome.panicked

end NetbenchWorkerProtocol

namespace Russula

/-- The aggregate poll of `Russula::poll_next` (`russula.rs` lines 47-56),
specialized to the worker protocol whose `poll_state` is in the sources: poll
each peer session in order toward the target phase, returning `Pending` as soon
as one session reports `Pending` (later sessions are not polled); `none` models
the `.unwrap()` crash when a session's poll errors.  The per-session target
plumbing lives in the absent `protocol.rs`; spec section 4.4 gives the
aggregate contract `poll_all_toward(target)`. -/
def poll_next :
    List (WorkerNetbenchServerState × ReadResult) → WorkerNetbenchServerState →
    Option (List WorkerNetbenchServerState × Poll)
  | [], _ => some ([], Poll.Ready)
  | (s, r) :: rest, target =>
    match WorkerNetbenchServerState.poll_state s target r with
    | Except.error _ => none
    | Except.ok (s2, Poll.Pending) => some (s2 :: rest.map Prod.fst, Poll.Pending)
    | Except.ok (s2, Poll.Ready) =>
      match poll_next rest target with
      | none => none
      | some (rest2, q) => some (s2 :: rest2, q)

/-- The aggregate self-state check of `Russula::check_self_state` (`russula.rs`
lines 58-66): starting from `true`, AND the equality of the queried state with
every peer session's current state. -/
def check_self_state (peers : List WorkerNetbenchServerState)
    (state : WorkerNetbenchServerState) : Bool :=
  peers.foldl (fun m p => m && WorkerNetbenchServerState.eq state p) true

end Russula

/-- Step alphabet of the coordinator machine: a `run` step driven by a read
outcome, or a raw `process_msg` step with a received token. -/
inductive CoordStep
  | recvStep (r : ReadResult)
  | msgStep (m : String)

/-- Phase effect of one coordinator step. -/
def coordStepPhase (st : CoordStep) (s : NetbenchCoordServerState) : NetbenchCoordServerState :=
  match st with
  | CoordStep.recvStep r => NetbenchCoordServerState.runPhase s r
  | CoordStep.msgStep m => NetbenchCoordServerState.process_msg s m

/-- Phase after a sequence of coordinator steps. -/
def coordApplySteps (l : List CoordStep) (s : NetbenchCoordServerState) : NetbenchCoordServerState :=
  l.foldl (fun acc st => coordStepPhase st acc) s

/-- Phase after a sequence of worker `run` steps. -/
def workerApplySteps (l : List ReadResult) (s : WorkerNetbenchServerState) : WorkerNetbenchServerState :=
  l.foldl (fun acc r => WorkerNetbenchServerState.runPhase acc r) s

/-- Step alphabet of the `netbench.rs` machine: a `process_msg` step with a
received token, or a bare self-driven `next` step. -/
inductive NetStep
  | msgStep (m : String)
  | selfStep

/-- Phase effect of one `netbench.rs` step. -/
def netStepPhase (st : NetStep) (s : NetbenchWorkerState) : NetbenchWorkerState :=
  match st with
  | NetStep.msgStep m => NetbenchWorkerState.process_msg s m
  | NetStep.selfStep => NetbenchWorkerState.next s

/-- Phase after a sequence of `netbench.rs` steps. -/
def netApplySteps (l : List NetStep) (s : NetbenchWorkerState) : NetbenchWorkerState :=
  l.foldl (fun acc st => netStepPhase st acc) s

theorem workerEq_iff (a b : WorkerNetbenchServerState) :
    WorkerNetbenchServerState.eq a b = true ↔ a = b := by
  cases a <;> cases b <;> simp [WorkerNetbenchServerState.eq]

theorem poll_state_ok_ready_iff {s target s2 : WorkerNetbenchServerState}
    {r : ReadResult} {p : Poll}
    (h : WorkerNetbenchServerState.poll_state s target r = Except.ok (s2, p)) :
    (p = Poll.Ready ↔ WorkerNetbenchServerState.eq s2 target = true) := by
  unfold WorkerNetbenchServerState.poll_state at h
  split at h
  · exact absurd h (by simp)
  · rename_i s3 heq
    simp only [Except.ok.injEq, Prod.mk.injEq] at h
    obtain ⟨rfl, rfl⟩ := h
    by_cases hb : WorkerNetbenchServerState.eq s3 target = true
    · simp [hb]
    · simp [hb]

theorem coord_idx_le_next :
    ∀ s : NetbenchCoordServerState,
      NetbenchCoordServerState.idx s ≤ NetbenchCoordServerState.idx (NetbenchCoordServerState.next s) := by
  decide

theorem worker_idx_le_next :
    ∀ s : WorkerNetbenchServerState,
      WorkerNetbenchServerState.idx s ≤ WorkerNetbenchServerState.idx (WorkerNetbenchServerState.next_state s) := by
  decide

theorem net_idx_le_next :
    ∀ s : NetbenchWorkerState,
      NetbenchWorkerState.idx s ≤ NetbenchWorkerState.idx (NetbenchWorkerState.next s) := by
  decide

theorem coord_process_msg_cases (m : String) (s : NetbenchCoordServerState) :
    NetbenchCoordServerState.process_msg s m = s
      ∨ NetbenchCoordServerState.process_msg s m = NetbenchCoordServerState.next s := by
  cases s <;>
    simp only [NetbenchCoordServerState.process_msg, NetbenchCoordServerState.expect_peer_msg,
      WorkerNetbenchServerState.as_bytes] <;>
    first
      | (split <;> simp)
      | simp

theorem coord_runPhase_cases (r : ReadResult) (s : NetbenchCoordServerState) :
    NetbenchCoordServerState.runPhase s r = s
      ∨ NetbenchCoordServerState.runPhase s r = NetbenchCoordServerState.next s := by
  cases s with
  | CoordCheckPeer =>
    cases r with
    | data msg =>
      have h := coord_process_msg_cases msg NetbenchCoordServerState.CoordCheckPeer
      cases hfb : WorkerNetbenchServerState.from_bytes msg with
      | ok w =>
        simpa only [NetbenchCoordServerState.runPhase, NetbenchCoordServerState.run,
          NetbenchCoordServerState.recv_msg, hfb] using h
      | error e =>
        left
        simp only [NetbenchCoordServerState.runPhase, NetbenchCoordServerState.run,
          NetbenchCoordServerState.recv_msg, hfb]
    | wouldBlock => left; rfl
    | ioFail => left; rfl
  | CoordReady => right; rfl
  | CoordWaitPeerDone => right; rfl
  | CoordDone => right; rfl

theorem worker_runPhase_cases (r : ReadResult) (s : WorkerNetbenchServerState) :
    WorkerNetbenchServerState.runPhase s r = s
      ∨ WorkerNetbenchServerState.runPhase s r = WorkerNetbenchServerState.next_state s := by
  cases s with
  | WaitPeerInit =>
    cases r with
    | data msg =>
      by_cases hm : msg = "coord_check_peer"
      · right
        simp [WorkerNetbenchServerState.runPhase, WorkerNetbenchServerState.run,
          WorkerNetbenchServerState.await_peer_msg, WorkerNetbenchServerState.transition_step,
          CoordNetbenchServerState.as_bytes, hm]
      · left
        simp [WorkerNetbenchServerState.runPhase, WorkerNetbenchServerState.run,
          WorkerNetbenchServerState.await_peer_msg, WorkerNetbenchServerState.transition_step,
          CoordNetbenchServerState.as_bytes, hm]
    | wouldBlock => left; rfl
    | ioFail => left; rfl
  | Ready =>
    cases r with
    | data msg =>
      by_cases hm : msg = "coord_run_peer"
      · right
        simp [WorkerNetbenchServerState.runPhase, WorkerNetbenchServerState.run,
          WorkerNetbenchServerState.await_peer_msg, WorkerNetbenchServerState.transition_step,
          CoordNetbenchServerState.as_bytes, hm]
      · left
        simp [WorkerNetbenchServerState.runPhase, WorkerNetbenchServerState.run,
          WorkerNetbenchServerState.await_peer_msg, WorkerNetbenchServerState.transition_step,
          CoordNetbenchServerState.as_bytes, hm]
    | wouldBlock => left; rfl
    | ioFail => left; rfl
  | Run => right; rfl
  | Done => left; rfl

theorem net_step_cases (st : NetStep) (s : NetbenchWorkerState) :
    netStepPhase st s = s ∨ netStepPhase st s = NetbenchWorkerState.next s := by
  cases st with
  | msgStep m =>
    cases s with
    | Ready => left; rfl
    | WaitPeerDone =>
      left
      simp [netStepPhase, NetbenchWorkerState.process_msg,
        NetbenchWorkerState.next_transition_msg]
    | Done => left; rfl
  | selfStep => exact Or.inr rfl

theorem foldl_idx_mono {σ τ : Type} (index : σ → Nat) (f : τ → σ → σ)
    (hf : ∀ t s, index s ≤ index (f t s)) (l : List τ) (s : σ) :
    index s ≤ index (l.foldl (fun acc t => f t acc) s) := by
  induction l generalizing s with
  | nil => simp
  | cons t ts ih => exact le_trans (hf t s) (ih (f t s))

/-- Claim C1: the claim states that for every phase of every role's chain,
`from_bytes` after `as_bytes` returns the original phase, and that undefined
byte sequences decode to `BadMsg`.  Evaluation shows the claim fails at the
coordinator phase `CoordCheckPeer`: its own token `coord_check_peer` has no arm
in `NetbenchCoordServerState::from_bytes` (`netbench_server_coord.rs` lines
182-195), so decoding its encoding yields `BadMsg` instead of the phase.  The
round trip does hold for every worker and netbench phase, and an undefined
token such as `bogus` does yield `BadMsg`. -/
theorem c1_round_trip_evaluation :
    NetbenchCoordServerState.from_bytes
        (NetbenchCoordServerState.as_bytes NetbenchCoordServerState.CoordCheckPeer)
      = Except.error (RussulaError.BadMsg ("coord_check_peer"))
    ∧ (∀ s : WorkerNetbenchServerState,
        WorkerNetbenchServerState.from_bytes (WorkerNetbenchServerState.as_bytes s) = Except.ok s)
    ∧ (∀ s : NetbenchWorkerState,
        NetbenchWorkerState.from_bytes (NetbenchWorkerState.as_bytes s) = Except.ok s)
    ∧ (∀ s : NetbenchCoordServerState, s ≠ NetbenchCoordServerState.CoordCheckPeer →
        NetbenchCoordServerState.from_bytes (NetbenchCoordServerState.as_bytes s) = Except.ok s)
    ∧ NetbenchCoordServerState.from_bytes ("bogus")
      = Except.error (RussulaError.BadMsg ("bogus"))
    ∧ WorkerNetbenchServerState.from_bytes ("bogus")
      = Except.error (RussulaError.BadMsg ("bogus"))
    ∧ NetbenchWorkerState.from_bytes ("bogus")
      = Except.error (RussulaError.BadMsg ("bogus")) :=
  ⟨rfl,
   fun s => by cases s <;> rfl,
   fun s => by cases s <;> rfl,
   fun s h => by cases s <;> first | rfl | exact absurd rfl h,
   rfl, rfl, rfl⟩

/-- Claim C3: the claim states that a peer-driven phase advances to its unique
successor exactly when the received message equals its expected peer token.
Evaluation at the failing input: the `netbench.rs` phase `WaitPeerDone` expects
the token `wait_peer_done_next` and its successor is `Done`, yet `process_msg`
on exactly that token leaves the phase at `WaitPeerDone`, because `next`
(`netbench.rs` lines 127-133) returns the successor without assigning `*self`
and `process_msg` discards the returned value.  The coordinator's `process_msg`
(whose `next` does assign `*self`) does advance on the matching token, shown
here for contrast. -/
theorem c3_process_msg_failing_input :
    NetbenchWorkerState.next_transition_msg NetbenchWorkerState.WaitPeerDone
      = some (NextTransitionMsg.PeerDriven ("wait_peer_done_next"))
    ∧ NetbenchWorkerState.next NetbenchWorkerState.WaitPeerDone = NetbenchWorkerState.Done
    ∧ NetbenchWorkerState.process_msg NetbenchWorkerState.WaitPeerDone ("wait_peer_done_next")
      = NetbenchWorkerState.WaitPeerDone
    ∧ NetbenchCoordServerState.process_msg NetbenchCoordServerState.CoordCheckPeer ("server_ready")
      = NetbenchCoordServerState.CoordReady
    ∧ NetbenchCoordServerState.process_msg NetbenchCoordServerState.CoordWaitPeerDone ("server_done")
      = NetbenchCoordServerState.CoordDone :=
  ⟨rfl, rfl, rfl, rfl, rfl⟩

/-- Claim C4: the claim states that a would-block read is returned to the
caller as the normal non-error "peer not ready yet" outcome and is never a
failure or a crash.  Evaluation at the failing input: both in-source receive
implementations (`NetbenchCoordServerProtocol::recv_msg`,
`netbench_server_coord.rs` lines 64-82, and `NetbenchWorkerProtocol::recv_msg`,
`netbench.rs` lines 58-75) execute `panic!` when `try_read_buf` reports
`ErrorKind::WouldBlock`, crashing the session instead. -/
theorem c4_recv_would_block_panics :
    NetbenchCoordServerProtocol.recv_msg ReadResult.wouldBlock = StepOutcome.panicked
    ∧ NetbenchWorkerProtocol.recv_msg NetbenchWorkerState.Ready ReadResult.wouldBlock
      = StepOutcome.panicked :=
  ⟨rfl, rfl⟩

/-- Claim C5: the server-endpoint coordinator phase type
`CoordNetbenchServerState` (modelled from the spec, its defining module being
absent from the sources) is the linear five-phase chain
`CheckPeer -> Ready -> RunPeer -> KillPeer -> Done`: the five listed phases are
pairwise distinct and exhaustive, each phase's successor is the next one in the
chain, and `Done` is terminal. -/
theorem c5_coord_five_phase_chain :
    (∀ s : CoordNetbenchServerState,
      s ∈ [CoordNetbenchServerState.CheckPeer, CoordNetbenchServerState.Ready,
        CoordNetbenchServerState.RunPeer, CoordNetbenchServerState.KillPeer,
        CoordNetbenchServerState.Done])
    ∧ [CoordNetbenchServerState.CheckPeer, CoordNetbenchServerState.Ready,
        CoordNetbenchServerState.RunPeer, CoordNetbenchServerState.KillPeer,
        CoordNetbenchServerState.Done].Nodup
    ∧ CoordNetbenchServerState.next CoordNetbenchServerState.CheckPeer
      = CoordNetbenchServerState.Ready
    ∧ CoordNetbenchServerState.next CoordNetbenchServerState.Ready
      = CoordNetbenchServerState.RunPeer
    ∧ CoordNetbenchServerState.next CoordNetbenchServerState.RunPeer
      = CoordNetbenchServerState.KillPeer
    ∧ CoordNetbenchServerState.next CoordNetbenchServerState.KillPeer
      = CoordNetbenchServerState.Done
    ∧ CoordNetbenchServerState.next CoordNetbenchServerState.Done
      = CoordNetbenchServerState.Done := by
  refine ⟨?_, ?_, rfl, rfl, rfl, rfl, rfl⟩ <;> decide

/-- Claim C7: for every role's chain the terminal phase is an idempotent fixed
point of the successor function: iterating `next` (coordinator,
`netbench_server_coord.rs` lines 144-151), `next_state` (worker,
`netbench_server_worker.rs` lines 157-164) and `next` (`netbench.rs` lines
127-133) any number of times from the terminal phase yields the terminal
phase. -/
theorem c7_terminal_fixed_point :
    (∀ n : Nat, NetbenchCoordServerState.next^[n] NetbenchCoordServerState.CoordDone
      = NetbenchCoordServerState.CoordDone)
    ∧ (∀ n : Nat, WorkerNetbenchServerState.next_state^[n] WorkerNetbenchServerState.Done
      = WorkerNetbenchServerState.Done)
    ∧ (∀ n : Nat, NetbenchWorkerState.next^[n] NetbenchWorkerState.Done
      = NetbenchWorkerState.Done) :=
  ⟨fun n => Function.iterate_fixed rfl n,
   fun n => Function.iterate_fixed rfl n,
   fun n => Function.iterate_fixed rfl n⟩

/-- Claim C8: an aggregate built over an empty peer set is vacuously at every
target: `Russula::poll_next` over no peers returns `Ready` (the loop body never
runs) and `Russula::check_self_state` over no peers returns `true` for every
queried phase. -/
theorem c8_empty_aggregate :
    (∀ target : WorkerNetbenchServerState,
      Russula.poll_next [] target = some ([], Poll.Ready))
    ∧ (∀ s : WorkerNetbenchServerState, Russula.check_self_state [] s = true) :=
  ⟨fun _ => rfl, fun _ => rfl⟩

/-- Claim C9: for every phase whose expected peer message is `None` and every
message value, `process_msg` leaves the phase unchanged, both for the
coordinator (`netbench_server_coord.rs` lines 131-142 and 153-165) and for the
`netbench.rs` machine (lines 117-125 and 135-143). -/
theorem c9_no_expected_msg_frame (msg : String) :
    (∀ s : NetbenchCoordServerState, NetbenchCoordServerState.expect_peer_msg s = none →
      NetbenchCoordServerState.process_msg s msg = s)
    ∧ (∀ s : NetbenchWorkerState, NetbenchWorkerState.next_transition_msg s = none →
      NetbenchWorkerState.process_msg s msg = s) :=
  ⟨fun s h => by cases s <;> first | rfl | exact absurd h (by simp [NetbenchCoordServerState.expect_peer_msg]),
   fun s h => by cases s <;> first | rfl | exact absurd h (by simp [NetbenchWorkerState.next_transition_msg])⟩

/-- Witness for C9 at the concrete input: `CoordReady` expects no peer message
and `process_msg` on the token `bogus` leaves it at `CoordReady`. -/
theorem c9_no_expected_msg_frame_witness :
    NetbenchCoordServerState.expect_peer_msg NetbenchCoordServerState.CoordReady = none
    ∧ NetbenchCoordServerState.process_msg NetbenchCoordServerState.CoordReady ("bogus")
      = NetbenchCoordServerState.CoordReady :=
  ⟨rfl, (c9_no_expected_msg_frame ("bogus")).1 NetbenchCoordServerState.CoordReady rfl⟩

/-- Claim C10: from every phase, iterating the successor function reaches the
terminal phase in at most the length of the chain: three applications for the
four-phase coordinator and worker chains, two for the three-phase `netbench.rs`
chain; further applications stay at the terminal phase. -/
theorem c10_reaches_terminal :
    (∀ s : NetbenchCoordServerState,
      NetbenchCoordServerState.next^[3] s = NetbenchCoordServerState.CoordDone)
    ∧ (∀ s : WorkerNetbenchServerState,
      WorkerNetbenchServerState.next_state^[3] s = WorkerNetbenchServerState.Done)
    ∧ (∀ s : NetbenchWorkerState,
      NetbenchWorkerState.next^[2] s = NetbenchWorkerState.Done) :=
  ⟨fun s => by cases s <;> rfl,
   fun s => by cases s <;> rfl,
   fun s => by cases s <;> rfl⟩

/-- Claim C2: the aggregate `Russula::poll_next` (`russula.rs` lines 47-56)
returns `Ready` exactly when every peer session of the returned aggregate state
is at the target phase, and any single session whose poll reports `Pending`
forces the aggregate result to `Pending`. -/
theorem c2_poll_next_barrier
    (peers : List (WorkerNetbenchServerState × ReadResult))
    (target : WorkerNetbenchServerState)
    (out : List WorkerNetbenchServerState × Poll)
    (h : Russula.poll_next peers target = some out) :
    (out.2 = Poll.Ready ↔ ∀ s ∈ out.1, WorkerNetbenchServerState.eq s target = true)
    ∧ (∀ p ∈ peers, ∀ s2 : WorkerNetbenchServerState,
        WorkerNetbenchServerState.poll_state p.1 target p.2 = Except.ok (s2, Poll.Pending) →
        out.2 = Poll.Pending) := by
  induction peers generalizing out with
  | nil =>
    simp only [Russula.poll_next, Option.some.injEq] at h
    subst h
    simp
  | cons pr rest ih =>
    obtain ⟨s, r⟩ := pr
    simp only [Russula.poll_next] at h
    cases hps : WorkerNetbenchServerState.poll_state s target r with
    | error e =>
      simp only [hps] at h
      exact Option.noConfusion h
    | ok sp =>
      obtain ⟨s2, p⟩ := sp
      simp only [hps] at h
      cases p with
      | Pending =>
        simp only [Option.some.injEq] at h
        subst h
        have hiff := poll_state_ok_ready_iff hps
        have hne : WorkerNetbenchServerState.eq s2 target = false := by
          rcases Bool.eq_false_or_eq_true (WorkerNetbenchServerState.eq s2 target) with hb | hb
          · exact absurd (hiff.mpr hb) (by decide)
          · exact hb
        constructor
        · constructor
          · intro hr
            exact Poll.noConfusion hr
          · intro hall
            have hmem := hall s2 (List.mem_cons_self _ _)
            simp [hmem] at hne
        · intro p hp s3 hs3
          rfl
      | Ready =>
        have hs2 : WorkerNetbenchServerState.eq s2 target = true :=
          (poll_state_ok_ready_iff hps).mp rfl
        cases hrec : Russula.poll_next rest target with
        | none =>
          simp only [hrec] at h
          exact Option.noConfusion h
        | some outr =>
          obtain ⟨rest2, q⟩ := outr
          simp only [hrec, Option.some.injEq] at h
          subst h
          obtain ⟨ih1, ih2⟩ := ih (rest2, q) hrec
          constructor
          · constructor
            · intro hq s3 hs3
              rcases List.mem_cons.mp hs3 with rfl | hs3
              · exact hs2
              · exact (ih1.mp hq) s3 hs3
            · intro hall
              exact ih1.mpr (fun s3 hs3 => hall s3 (List.mem_cons_of_mem _ hs3))
          · intro p hp s3 hs3
            rcases List.mem_cons.mp hp with rfl | hp2
            · simp [hps] at hs3
            · exact ih2 p hp2 s3 hs3

/-- Witness for C2 at a concrete input: an aggregate of two worker sessions,
one already at the target `Done` and one at `Ready` whose would-block read
leaves it below the target, polls to `Pending`, and the lagging session's
`Pending` poll forces that outcome. -/
theorem c2_poll_next_barrier_witness :
    ((([WorkerNetbenchServerState.Done, WorkerNetbenchServerState.Ready] :
        List WorkerNetbenchServerState), Poll.Pending).2 = Poll.Ready
      ↔ ∀ s ∈ (([WorkerNetbenchServerState.Done, WorkerNetbenchServerState.Ready] :
          List WorkerNetbenchServerState), Poll.Pending).1,
          WorkerNetbenchServerState.eq s WorkerNetbenchServerState.Done = true)
    ∧ (∀ p ∈ [(WorkerNetbenchServerState.Done, ReadResult.wouldBlock),
        (WorkerNetbenchServerState.Ready, ReadResult.wouldBlock)],
        ∀ s2 : WorkerNetbenchServerState,
          WorkerNetbenchServerState.poll_state p.1 WorkerNetbenchServerState.Done p.2
            = Except.ok (s2, Poll.Pending) →
          ((([WorkerNetbenchServerState.Done, WorkerNetbenchServerState.Ready] :
            List WorkerNetbenchServerState), Poll.Pending)).2 = Poll.Pending) :=
  c2_poll_next_barrier
    [(WorkerNetbenchServerState.Done, ReadResult.wouldBlock),
     (WorkerNetbenchServerState.Ready, ReadResult.wouldBlock)]
    WorkerNetbenchServerState.Done
    ([WorkerNetbenchServerState.Done, WorkerNetbenchServerState.Ready], Poll.Pending)
    (by decide)

/-- Claim C6: every step of every role's machine either leaves the phase
unchanged or moves it to its unique successor in the fixed chain, and along any
sequence of steps the chain position never decreases, so a phase earlier in the
chain is never reached again once left.  Steps are the coordinator's `run` and
`process_msg` (`netbench_server_coord.rs` lines 99-112 and 153-165), the
worker's `run` (`netbench_server_worker.rs` lines 100-118), and the
`netbench.rs` machine's `process_msg` and `next` (lines 135-143 and
127-133). -/
theorem c6_phase_only_moves_forward :
    (∀ (r : ReadResult) (s : NetbenchCoordServerState),
      NetbenchCoordServerState.runPhase s r = s
        ∨ NetbenchCoordServerState.runPhase s r = NetbenchCoordServerState.next s)
    ∧ (∀ (m : String) (s : NetbenchCoordServerState),
      NetbenchCoordServerState.process_msg s m = s
        ∨ NetbenchCoordServerState.process_msg s m = NetbenchCoordServerState.next s)
    ∧ (∀ (r : ReadResult) (s : WorkerNetbenchServerState),
      WorkerNetbenchServerState.runPhase s r = s
        ∨ WorkerNetbenchServerState.runPhase s r = WorkerNetbenchServerState.next_state s)
    ∧ (∀ (st : NetStep) (s : NetbenchWorkerState),
      netStepPhase st s = s ∨ netStepPhase st s = NetbenchWorkerState.next s)
    ∧ (∀ (l : List CoordStep) (s : NetbenchCoordServerState),
      NetbenchCoordServerState.idx s ≤ NetbenchCoordServerState.idx (coordApplySteps l s))
    ∧ (∀ (l : List ReadResult) (s : WorkerNetbenchServerState),
      WorkerNetbenchServerState.idx s ≤ WorkerNetbenchServerState.idx (workerApplySteps l s))
    ∧ (∀ (l : List NetStep) (s : NetbenchWorkerState),
      NetbenchWorkerState.idx s ≤ NetbenchWorkerState.idx (netApplySteps l s)) := by
  have hcstep : ∀ (st : CoordStep) (s : NetbenchCoordServerState),
      NetbenchCoordServerState.idx s ≤ NetbenchCoordServerState.idx (coordStepPhase st s) := by
    intro st s
    cases st with
    | recvStep r =>
      rcases coord_runPhase_cases r s with hc | hc
      · simp [coordStepPhase, hc]
      · simp only [coordStepPhase, hc]
        exact coord_idx_le_next s
    | msgStep m =>
      rcases coord_process_msg_cases m s with hc | hc
      · simp [coordStepPhase, hc]
      · simp only [coordStepPhase, hc]
        exact coord_idx_le_next s
  have hwstep : ∀ (r : ReadResult) (s : WorkerNetbenchServerState),
      WorkerNetbenchServerState.idx s
        ≤ WorkerNetbenchServerState.idx (WorkerNetbenchServerState.runPhase s r) := by
    intro r s
    rcases worker_runPhase_cases r s with hc | hc
    · simp [hc]
    · rw [hc]
      exact worker_idx_le_next s
  have hnstep : ∀ (st : NetStep) (s : NetbenchWorkerState),
      NetbenchWorkerState.idx s ≤ NetbenchWorkerState.idx (netStepPhase st s) := by
    intro st s
    rcases net_step_cases st s with hc | hc
    · simp [hc]
    · rw [hc]
      exact net_idx_le_next s
  refine ⟨coord_runPhase_cases, coord_process_msg_cases, worker_runPhase_cases, net_step_cases,
    ?_, ?_, ?_⟩
  · intro l s
    exact foldl_idx_mono NetbenchCoordServerState.idx coordStepPhase hcstep l s
  · intro l s
    exact foldl_idx_mono WorkerNetbenchServerState.idx
      (fun r s2 => WorkerNetbenchServerState.runPhase s2 r) hwstep l s
  · intro l s
    exact foldl_idx_mono NetbenchWorkerState.idx netStepPhase hnstep l s
